import Mathlib

/-!
Verification of the endpoint registry and request-matching engine of
`mcvs-integrationtest-services` (`internal/app/stubserver/resp_manager.go`).

Go `map[string]string` values are embedded as association lists
`List (String × String)`; a Go map never holds two bindings for one key, which
appears below as `(l.map Prod.fst).Nodup` hypotheses where a result depends on
it.  `sort.Strings` is embedded as `List.insertionSort (· ≤ ·)` (any correct
sort of a duplicate-free key list yields the same sorted list).  The registry
map `endpoints` is an association list from identity string to configuration;
map insertion appends, map deletion filters.  Go `error` results become
`Except StubError`, with one `StubError` constructor per `fmt.Errorf` site.
The Go map iteration order in `MatchEndpoint` is the list order of the model;
every theorem below states an order-independent property.
-/

deriving instance DecidableEq for Except

namespace StubServer

/-- `EndpointID` from resp_manager.go: path, HTTP method, and the query-param
and header constraint maps. -/
structure EndpointID where
  Path : String
  HTTPMethod : String
  QueryParamsToMatch : List (String × String)
  HeadersToMatch : List (String × String)
deriving DecidableEq, Repr, Inhabited

/-- `EndpointConfiguration` from resp_manager.go. -/
structure EndpointConfiguration where
  endpointID : EndpointID
  ResponseHeaders : List (String × String)
  ResponseBody : String
  ResponseStatusCode : Int
deriving DecidableEq, Repr, Inhabited

/-- One error constructor per `fmt.Errorf` site in resp_manager.go. -/
inductive StubError where
  /-- validation failures: "path and method are required",
  "response body is required", "invalid HTTP method: %s" -/
  | validation (msg : String)
  /-- "endpoint already exists: %s" -/
  | duplicate (identity : String)
  /-- "can't match for request: %s, to many matches" -/
  | ambiguous (identity : String)
  /-- "no endpoints matched the given request: %s" -/
  | noMatch (path : String)
  /-- "endpoint not found: %s" -/
  | notFound (identity : String)
deriving DecidableEq, Repr

/-- The string order used by `sort.Strings`: lexicographic on the character
sequence (stated on `String.data` so that it evaluates in the kernel). -/
def strLe (a b : String) : Prop := a.data ≤ b.data

instance : DecidableRel strLe := fun a b => inferInstanceAs (Decidable (a.data ≤ b.data))

/-- `strings.ToLower`: lower-case every character (stated on `String.data` so
that it evaluates in the kernel). -/
def lowercase (s : String) : String := ⟨s.data.map Char.toLower⟩

/-- The sorted-keys `:name=value` suffix built by `GetID` for one constraint
map: collect the keys, `sort.Strings` them, and append `:key=value` for each. -/
def pairsSuffix (m : List (String × String)) (acc : String) : String :=
  let keys := List.insertionSort strLe (m.map Prod.fst)
  keys.foldl (fun b k => b ++ ":" ++ k ++ "=" ++ ((List.lookup k m).getD "")) acc

/-- `GetID` from resp_manager.go: `path:method`, then `:key=value` for the
header keys in ascending order, then for the query-param keys in ascending
order, the whole string lower-cased. -/
def GetID (ei : EndpointID) : String :=
  lowercase (pairsSuffix ei.QueryParamsToMatch
    (pairsSuffix ei.HeadersToMatch (ei.Path ++ ":" ++ ei.HTTPMethod)))

/-- `validMethods` from `validateHTTPMethods`. -/
def validMethods : List String := ["GET", "POST", "PUT", "DELETE", "PATCH", "OPTIONS"]

/-- `validateHTTPMethods` from resp_manager.go. -/
def validateHTTPMethods (ep : EndpointConfiguration) : Except StubError Unit :=
  if validMethods.contains ep.endpointID.HTTPMethod then
    .ok ()
  else
    .error (.validation ("invalid HTTP method: " ++ ep.endpointID.HTTPMethod))

/-- `ValidateEndpoint` from resp_manager.go. -/
def ValidateEndpoint (ep : EndpointConfiguration) : Except StubError Unit :=
  if ep.endpointID.Path = "" ∨ ep.endpointID.HTTPMethod = "" then
    .error (.validation "path and method are required")
  else if ep.ResponseBody = "" then
    .error (.validation "response body is required")
  else
    validateHTTPMethods ep

/-- `calculateMatch` from resp_manager.go: for every request query pair count
the candidate query pairs equal to it, likewise for headers, and sum. -/
def calculateMatch (ec : EndpointConfiguration) (ei : EndpointID) : Nat :=
  (ei.QueryParamsToMatch.map
    (fun p => ec.endpointID.QueryParamsToMatch.countP
      (fun q => q.1 == p.1 && q.2 == p.2))).sum
  + (ei.HeadersToMatch.map
    (fun p => ec.endpointID.HeadersToMatch.countP
      (fun q => q.1 == p.1 && q.2 == p.2))).sum

/-- The registry state: the `endpoints` map from identity string to
configuration, as an association list. -/
structure ResponseManager where
  endpoints : List (String × EndpointConfiguration)
deriving DecidableEq, Repr, Inhabited

/-- `NewResponseManager` from resp_manager.go: empty registry. -/
def NewResponseManager : ResponseManager := ⟨[]⟩

/-- `AddEndpoint` from resp_manager.go: validate, compute the identity, fail
if present, otherwise insert. -/
def AddEndpoint (rm : ResponseManager) (ec : EndpointConfiguration) :
    Except StubError ResponseManager :=
  match ValidateEndpoint ec with
  | .error e => .error e
  | .ok _ =>
    let endpointID := GetID ec.endpointID
    if (rm.endpoints.lookup endpointID).isSome then
      .error (.duplicate endpointID)
    else
      .ok ⟨rm.endpoints ++ [(endpointID, ec)]⟩

/-- The `currentScore > maxScore` update in `MatchEndpoint`; `none` plays the
role of the initial `-1`. -/
def updateMax (maxScore : Option Nat) (currentScore : Nat) : Option Nat :=
  match maxScore with
  | none => some currentScore
  | some m => if currentScore > m then some currentScore else some m

/-- The loop of `MatchEndpoint` over the `endpoints` map: skip entries whose
path or method differs; for a candidate, fail if its score is already a key of
`endpointsScoring`, otherwise record it and update `maxScore`. -/
def matchLoop : List (String × EndpointConfiguration) → EndpointID →
    List (Nat × EndpointConfiguration) → Option Nat →
    Except StubError (List (Nat × EndpointConfiguration) × Option Nat)
  | [], _, endpointsScoring, maxScore => .ok (endpointsScoring, maxScore)
  | (_, endpoint) :: rest, ei, endpointsScoring, maxScore =>
    if endpoint.endpointID.Path = ei.Path ∧ endpoint.endpointID.HTTPMethod = ei.HTTPMethod then
      let currentScore := calculateMatch endpoint ei
      if (endpointsScoring.lookup currentScore).isSome then
        .error (.ambiguous (GetID endpoint.endpointID))
      else
        matchLoop rest ei (endpointsScoring ++ [(currentScore, endpoint)])
          (updateMax maxScore currentScore)
    else
      matchLoop rest ei endpointsScoring maxScore

/-- `MatchEndpoint` from resp_manager.go: run the loop; `maxScore == -1`
(here `none`) means no candidate, otherwise return `endpointsScoring[maxScore]`
(the `getD default` branch is unreachable: the maximum is always a key). -/
def MatchEndpoint (rm : ResponseManager) (ei : EndpointID) :
    Except StubError EndpointConfiguration :=
  match matchLoop rm.endpoints ei [] none with
  | .error e => .error e
  | .ok (_, none) => .error (.noMatch ei.Path)
  | .ok (endpointsScoring, some maxScore) =>
    .ok ((endpointsScoring.lookup maxScore).getD default)

/-- `GetEndpointByEndpointID` from resp_manager.go: exact lookup by identity. -/
def GetEndpointByEndpointID (rm : ResponseManager) (ei : EndpointID) :
    Except StubError EndpointConfiguration :=
  match rm.endpoints.lookup (GetID ei) with
  | some config => .ok config
  | none => .error (.notFound (GetID ei))

/-- `GetAllEndpointConfigurations` from resp_manager.go. -/
def GetAllEndpointConfigurations (rm : ResponseManager) : List EndpointConfiguration :=
  rm.endpoints.map Prod.snd

/-- `DeleteEndpointByEndpointID` from resp_manager.go. -/
def DeleteEndpointByEndpointID (rm : ResponseManager) (ei : EndpointID) :
    Except StubError ResponseManager :=
  let endpointID := GetID ei
  if (rm.endpoints.lookup endpointID).isSome then
    .ok ⟨rm.endpoints.filter (fun p => ¬ p.1 = endpointID)⟩
  else
    .error (.notFound endpointID)

/-- `DeleteEndpointByPath` from resp_manager.go: drop every entry whose
configuration has the given path; always succeeds. -/
def DeleteEndpointByPath (rm : ResponseManager) (path : String) :
    Except StubError ResponseManager :=
  .ok ⟨rm.endpoints.filter (fun p => ¬ p.2.endpointID.Path = path)⟩

/-- `DeleteEndpointByPathAndMethod` from resp_manager.go. -/
def DeleteEndpointByPathAndMethod (rm : ResponseManager) (path method : String) :
    Except StubError ResponseManager :=
  .ok ⟨rm.endpoints.filter
    (fun p => ¬ (p.2.endpointID.Path = path ∧ p.2.endpointID.HTTPMethod = method))⟩

/-- `DeleteAllEndpoints` from resp_manager.go. -/
def DeleteAllEndpoints (_ : ResponseManager) : ResponseManager := ⟨[]⟩

/-- The registry-mutating operations, for stating reachability invariants. -/
inductive Op where
  | add (ec : EndpointConfiguration)
  | deleteByID (ei : EndpointID)
  | deleteByPath (path : String)
  | deleteByPathAndMethod (path method : String)
  | deleteAll

/-- Apply one mutating operation; a failing call leaves the registry as it was. -/
def applyOp (rm : ResponseManager) : Op → ResponseManager
  | .add ec =>
    match AddEndpoint rm ec with
    | .ok rm' => rm'
    | .error _ => rm
  | .deleteByID ei =>
    match DeleteEndpointByEndpointID rm ei with
    | .ok rm' => rm'
    | .error _ => rm
  | .deleteByPath path =>
    match DeleteEndpointByPath rm path with
    | .ok rm' => rm'
    | .error _ => rm
  | .deleteByPathAndMethod path method =>
    match DeleteEndpointByPathAndMethod rm path method with
    | .ok rm' => rm'
    | .error _ => rm
  | .deleteAll => DeleteAllEndpoints rm

/-- The registry state reached from a fresh manager by a sequence of
operations. -/
def run (ops : List Op) : ResponseManager :=
  ops.foldl applyOp NewResponseManager

/-- The candidates `MatchEndpoint` considers: registered configurations whose
path and method equal the request's, in registry order. -/
def candidates (rm : ResponseManager) (ei : EndpointID) : List EndpointConfiguration :=
  (rm.endpoints.map Prod.snd).filter
    (fun c => c.endpointID.Path = ei.Path ∧ c.endpointID.HTTPMethod = ei.HTTPMethod)

/-- The scores of a candidate list against a request shape, in order. -/
def candScores (cs : List EndpointConfiguration) (ei : EndpointID) : List Nat :=
  cs.map (fun c => calculateMatch c ei)

/-- The loop of `MatchEndpoint` restricted to the candidates that already
passed the path/method test; `matchLoop` factors through it. -/
def matchCand : List EndpointConfiguration → EndpointID →
    List (Nat × EndpointConfiguration) → Option Nat →
    Except StubError (List (Nat × EndpointConfiguration) × Option Nat)
  | [], _, endpointsScoring, maxScore => .ok (endpointsScoring, maxScore)
  | c :: rest, ei, endpointsScoring, maxScore =>
    if (endpointsScoring.lookup (calculateMatch c ei)).isSome then
      .error (.ambiguous (GetID c.endpointID))
    else
      matchCand rest ei (endpointsScoring ++ [(calculateMatch c ei, c)])
        (updateMax maxScore (calculateMatch c ei))

/-- Fixture: catch-all registration on `GET /p` (no constraints). -/
def cfgTieA : EndpointConfiguration := ⟨⟨"/p", "GET", [], []⟩, [], "bodyA", 200⟩

/-- Fixture: registration on `GET /p` constrained by header `a=1`. -/
def cfgTieB : EndpointConfiguration := ⟨⟨"/p", "GET", [], [("a", "1")]⟩, [], "bodyB", 200⟩

/-- Fixture: registration on `GET /p` constrained by header `x=y`. -/
def cfgTieC : EndpointConfiguration := ⟨⟨"/p", "GET", [], [("x", "y")]⟩, [], "bodyC", 200⟩

/-- Fixture: registry holding the three `GET /p` registrations. -/
def rmTie : ResponseManager := run [.add cfgTieA, .add cfgTieB, .add cfgTieC]

/-- Fixture: registry holding only the catch-all and the `x=y` registration. -/
def rmNoTie : ResponseManager := run [.add cfgTieA, .add cfgTieC]

/-- Fixture: a `GET /p` request carrying header `x=y`. -/
def reqTie : EndpointID := ⟨"/p", "GET", [], [("x", "y")]⟩

/-- Fixture: a registration on a second path `/b`. -/
def cfgOther : EndpointConfiguration := ⟨⟨"/b", "GET", [], []⟩, [], "bodyD", 200⟩

/-- Fixture: registry holding one `/p` and one `/b` registration. -/
def rmMixed : ResponseManager := run [.add cfgTieA, .add cfgOther]

/-- Fixture: a registration whose path differs from `cfgLower` only in letter
case before lower-casing. -/
def cfgUpper : EndpointConfiguration := ⟨⟨"/A", "GET", [], []⟩, [], "upper", 200⟩

/-- Fixture: the lower-case counterpart of `cfgUpper`. -/
def cfgLower : EndpointConfiguration := ⟨⟨"/a", "GET", [], []⟩, [], "lower", 200⟩

section Lemmas

instance : IsTotal String strLe := ⟨fun a b => le_total a.data b.data⟩

instance : IsTrans String strLe := ⟨fun _ _ _ hab hbc => le_trans hab hbc⟩

instance : IsAntisymm String strLe := ⟨fun _ _ hab hba => String.ext (le_antisymm hab hba)⟩

theorem lookup_mem {α β : Type} [BEq α] [LawfulBEq α] {l : List (α × β)} {k : α} {v : β}
    (h : l.lookup k = some v) : (k, v) ∈ l := by
  rcases List.lookup_eq_some_iff.mp h with ⟨l₁, l₂, rfl, -⟩
  simp

theorem lookup_perm {α β : Type} [BEq α] [LawfulBEq α] {l₁ l₂ : List (α × β)}
    (h : l₁.Perm l₂) (k : α) :
    (l₁.map Prod.fst).Nodup → l₁.lookup k = l₂.lookup k := by
  induction h with
  | nil => intro _; rfl
  | cons p h ih =>
    intro hn
    obtain ⟨a, b⟩ := p
    by_cases hk : k = a
    · subst hk; simp
    · have hk' : (k == a) = false := by simpa using hk
      simp only [List.lookup_cons, hk']
      exact ih (by simpa using (List.nodup_cons.mp (by simpa using hn)).2)
  | swap x y l =>
    intro hn
    obtain ⟨a, b⟩ := x
    obtain ⟨a', b'⟩ := y
    have hne : a' ≠ a := by
      simp at hn
      exact hn.1.1
    by_cases hk : k = a <;> by_cases hk' : k = a'
    · exact absurd (hk'.symm.trans hk) hne
    · have h1 : (k == a) = true := by simpa using hk
      have h2 : (k == a') = false := by simpa using hk'
      simp [List.lookup_cons, h1, h2]
    · have h1 : (k == a) = false := by simpa using hk
      have h2 : (k == a') = true := by simpa using hk'
      simp [List.lookup_cons, h1, h2]
    · have h1 : (k == a) = false := by simpa using hk
      have h2 : (k == a') = false := by simpa using hk'
      simp [List.lookup_cons, h1, h2]
  | trans h₁ h₂ ih₁ ih₂ =>
    intro hn
    rw [ih₁ hn, ih₂ ((h₁.map Prod.fst).nodup hn)]

theorem pairsSuffix_perm {m₁ m₂ : List (String × String)} (h : m₁.Perm m₂)
    (hn : (m₁.map Prod.fst).Nodup) (acc : String) :
    pairsSuffix m₁ acc = pairsSuffix m₂ acc := by
  unfold pairsSuffix
  have hkeys : List.insertionSort strLe (m₁.map Prod.fst)
      = List.insertionSort strLe (m₂.map Prod.fst) := by
    refine List.eq_of_perm_of_sorted ?_ (List.sorted_insertionSort strLe _)
      (List.sorted_insertionSort strLe _)
    exact ((List.perm_insertionSort strLe _).trans (h.map Prod.fst)).trans
      (List.perm_insertionSort strLe _).symm
  have hfun : (fun (b k : String) => b ++ ":" ++ k ++ "=" ++ ((List.lookup k m₁).getD ""))
      = fun (b k : String) => b ++ ":" ++ k ++ "=" ++ ((List.lookup k m₂).getD "") := by
    funext b k
    rw [lookup_perm h k hn]
  rw [hkeys, hfun]

end Lemmas

/-- C2: the identity string of an `EndpointID` is independent of the insertion
order of its header and query-parameter maps: two `EndpointID`s with equal
path and method whose constraint lists are permutations of each other (with
the duplicate-free keys a Go map guarantees) yield the same `GetID` string. -/
theorem getID_order_independent (e₁ e₂ : EndpointID)
    (hp : e₁.Path = e₂.Path) (hm : e₁.HTTPMethod = e₂.HTTPMethod)
    (hh : e₁.HeadersToMatch.Perm e₂.HeadersToMatch)
    (hq : e₁.QueryParamsToMatch.Perm e₂.QueryParamsToMatch)
    (hhn : (e₁.HeadersToMatch.map Prod.fst).Nodup)
    (hqn : (e₁.QueryParamsToMatch.map Prod.fst).Nodup) :
    GetID e₁ = GetID e₂ := by
  unfold GetID
  rw [hp, hm, pairsSuffix_perm hh hhn, pairsSuffix_perm hq hqn]

/-- C2 witness: two concretely differently ordered constraint maps give the
same identity string. -/
theorem getID_order_independent_witness :
    GetID ⟨"/p", "GET", [("b", "2"), ("a", "1")], [("H", "V"), ("K", "W")]⟩
      = GetID ⟨"/p", "GET", [("a", "1"), ("b", "2")], [("K", "W"), ("H", "V")]⟩ :=
  getID_order_independent _ _ rfl rfl (by decide) (by decide) (by decide) (by decide)

theorem countP_pair_nodup (m : List (String × String)) (k v : String)
    (hn : (m.map Prod.fst).Nodup) :
    m.countP (fun q => q.1 == k && q.2 == v) = if m.lookup k = some v then 1 else 0 := by
  induction m with
  | nil => simp
  | cons p t ih =>
    obtain ⟨k', v'⟩ := p
    simp only [List.map_cons, List.nodup_cons, List.mem_map] at hn
    by_cases hk : k' = k
    · subst hk
      have hzero : t.countP (fun q => q.1 == k' && q.2 == v) = 0 := by
        apply List.countP_eq_zero.mpr
        intro a ha hcontra
        simp only [Bool.and_eq_true, beq_iff_eq] at hcontra
        exact hn.1 ⟨a, ha, hcontra.1⟩
      by_cases hv : v' = v
      · subst hv
        simp [List.countP_cons, hzero]
      · simp [List.countP_cons, hzero, hv]
    · have hhead : ((k', v').1 == k && (k', v').2 == v) = false := by
        simp [hk]
      have hkk : (k == k') = false := by
        simpa using fun h => hk h.symm
      simp only [List.countP_cons, hhead, List.lookup_cons, hkk, if_false]
      simpa using ih hn.2

theorem sum_count_eq_countP (m req : List (String × String))
    (hn : (m.map Prod.fst).Nodup) :
    (req.map (fun p => m.countP (fun q => q.1 == p.1 && q.2 == p.2))).sum
      = req.countP (fun p => m.lookup p.1 == some p.2) := by
  induction req with
  | nil => simp
  | cons p t ih =>
    simp only [List.map_cons, List.sum_cons, List.countP_cons, ih]
    rw [countP_pair_nodup m p.1 p.2 hn]
    by_cases h : m.lookup p.1 = some p.2
    · simp [h, Nat.add_comm]
    · simp [h]

/-- C3: for a candidate whose constraint maps have the duplicate-free keys a Go
map guarantees, the match score is the number of request query pairs the
candidate's query map sends to the same value plus the number of such request
header pairs; pairs present only in the request add nothing, and a candidate
with empty constraint maps scores 0 against every request. -/
theorem calculateMatch_spec (ec : EndpointConfiguration) (ei : EndpointID) :
    ((ec.endpointID.QueryParamsToMatch.map Prod.fst).Nodup →
      (ec.endpointID.HeadersToMatch.map Prod.fst).Nodup →
      calculateMatch ec ei
        = ei.QueryParamsToMatch.countP
            (fun p => ec.endpointID.QueryParamsToMatch.lookup p.1 == some p.2)
          + ei.HeadersToMatch.countP
            (fun p => ec.endpointID.HeadersToMatch.lookup p.1 == some p.2)) ∧
    (ec.endpointID.QueryParamsToMatch = [] → ec.endpointID.HeadersToMatch = [] →
      calculateMatch ec ei = 0) := by
  constructor
  · intro hq hh
    unfold calculateMatch
    rw [sum_count_eq_countP _ _ hq, sum_count_eq_countP _ _ hh]
  · intro hq hh
    unfold calculateMatch
    rw [hq, hh]
    simp

/-- C3 witness: the scoring rule evaluated on the concrete fixtures. -/
theorem calculateMatch_spec_witness :
    (calculateMatch cfgTieC reqTie
      = reqTie.QueryParamsToMatch.countP
          (fun p => cfgTieC.endpointID.QueryParamsToMatch.lookup p.1 == some p.2)
        + reqTie.HeadersToMatch.countP
          (fun p => cfgTieC.endpointID.HeadersToMatch.lookup p.1 == some p.2)) ∧
    calculateMatch cfgTieA reqTie = 0 :=
  ⟨(calculateMatch_spec cfgTieC reqTie).1 (by decide) (by decide),
   (calculateMatch_spec cfgTieA reqTie).2 rfl rfl⟩

theorem matchLoop_eq_matchCand (ei : EndpointID) (l : List (String × EndpointConfiguration)) :
    ∀ scoring maxScore,
    matchLoop l ei scoring maxScore
      = matchCand ((l.map Prod.snd).filter
          (fun c => decide (c.endpointID.Path = ei.Path ∧ c.endpointID.HTTPMethod = ei.HTTPMethod)))
          ei scoring maxScore := by
  induction l with
  | nil => intro scoring maxScore; rfl
  | cons p t ih =>
    intro scoring maxScore
    obtain ⟨s, c⟩ := p
    by_cases h : c.endpointID.Path = ei.Path ∧ c.endpointID.HTTPMethod = ei.HTTPMethod
    · rw [List.map_cons, List.filter_cons, if_pos (by simpa using h)]
      simp only [matchLoop, matchCand, if_pos h]
      by_cases hl : (scoring.lookup (calculateMatch c ei)).isSome = true
      · simp only [hl, if_true]
      · simp only [hl, if_false, ih]
    · rw [List.map_cons, List.filter_cons, if_neg (by simpa using h)]
      simp only [matchLoop, if_neg h, ih]

theorem matchCand_ok (ei : EndpointID) (cs : List EndpointConfiguration) :
    ∀ scoring maxScore,
    (∀ c ∈ cs, scoring.lookup (calculateMatch c ei) = none) →
    (candScores cs ei).Nodup →
    matchCand cs ei scoring maxScore
      = .ok (scoring ++ cs.map (fun c => (calculateMatch c ei, c)),
             (candScores cs ei).foldl updateMax maxScore) := by
  induction cs with
  | nil => intro scoring maxScore _ _; simp [matchCand, candScores]
  | cons c t ih =>
    intro scoring maxScore hnone hnd
    have h0 : scoring.lookup (calculateMatch c ei) = none := hnone c (by simp)
    have hsc : calculateMatch c ei ∉ candScores t ei := by
      have := hnd
      simp only [candScores, List.map_cons, List.nodup_cons] at this
      exact fun hmem => this.1 (by simpa [candScores] using hmem)
    simp only [matchCand, h0, Option.isSome_none, Bool.false_eq_true, if_false]
    rw [ih _ _ ?h1 ?h2]
    · simp [candScores, List.append_assoc]
    case h1 =>
      intro c' hc'
      rw [List.lookup_append, hnone c' (by simp [hc'])]
      have hne : (calculateMatch c' ei == calculateMatch c ei) = false := by
        simp only [beq_eq_false_iff_ne, ne_eq]
        intro hcontra
        exact hsc (by simpa [candScores, ← hcontra] using List.mem_map_of_mem _ hc')
      simp [List.lookup_cons, hne]
    case h2 =>
      have := hnd
      simp only [candScores, List.map_cons, List.nodup_cons] at this
      simpa [candScores] using this.2

theorem or_eq_none_parts {α : Type} {a b : Option α} (h : a.or b = none) :
    a = none ∧ b = none := by
  cases a <;> cases b <;> simp_all [Option.or]

theorem matchCand_err (ei : EndpointID) (cs : List EndpointConfiguration) :
    ∀ scoring maxScore,
    ¬ ((∀ c ∈ cs, scoring.lookup (calculateMatch c ei) = none) ∧ (candScores cs ei).Nodup) →
    ∃ id, matchCand cs ei scoring maxScore = .error (.ambiguous id) := by
  induction cs with
  | nil =>
    intro scoring maxScore h
    exact absurd ⟨by simp, by simp [candScores]⟩ h
  | cons c t ih =>
    intro scoring maxScore h
    by_cases h0 : scoring.lookup (calculateMatch c ei) = none
    · simp only [matchCand, h0, Option.isSome_none, Bool.false_eq_true, if_false]
      apply ih
      rintro ⟨h1, h2⟩
      apply h
      constructor
      · intro c' hc'
        rcases List.mem_cons.mp hc' with rfl | hmem
        · exact h0
        · have := h1 c' hmem
          rw [List.lookup_append] at this
          exact (or_eq_none_parts this).1
      · have hnotin : calculateMatch c ei ∉ candScores t ei := by
          intro hmem
          obtain ⟨c', hc', hsc⟩ := List.mem_map.mp (by simpa [candScores] using hmem)
          have := h1 c' hc'
          rw [hsc, List.lookup_append] at this
          have h2' := (or_eq_none_parts this).2
          simp at h2'
        simp only [candScores, List.map_cons, List.nodup_cons]
        exact ⟨by simpa [candScores] using hnotin, by simpa [candScores] using h2⟩
    · have hs : (scoring.lookup (calculateMatch c ei)).isSome = true :=
        Option.isSome_iff_ne_none.mpr h0
      exact ⟨GetID c.endpointID, by simp only [matchCand, hs, if_true]⟩

theorem foldl_updateMax_some (l : List Nat) :
    ∀ a, l.foldl updateMax (some a) = some (l.foldl max a) := by
  induction l with
  | nil => intro a; rfl
  | cons s t ih =>
    intro a
    have hstep : updateMax (some a) s = some (max a s) := by
      unfold updateMax
      by_cases h : s > a
      · simp [h, Nat.max_eq_right h.le]
      · simp [h, Nat.max_eq_left (Nat.le_of_not_lt h)]
    simp only [List.foldl_cons, hstep, ih]

theorem foldl_max_le (l : List Nat) :
    ∀ a, a ≤ l.foldl max a ∧ ∀ s ∈ l, s ≤ l.foldl max a := by
  induction l with
  | nil => intro a; simp
  | cons s t ih =>
    intro a
    constructor
    · exact le_trans (le_max_left a s) (ih (max a s)).1
    · intro x hx
      rcases List.mem_cons.mp hx with rfl | hmem
      · exact le_trans (le_max_right a x) (ih (max a x)).1
      · exact (ih (max a s)).2 x hmem

theorem foldl_max_mem (l : List Nat) :
    ∀ a, l.foldl max a = a ∨ l.foldl max a ∈ l := by
  induction l with
  | nil => intro a; exact .inl rfl
  | cons s t ih =>
    intro a
    rcases ih (max a s) with h | h
    · rw [List.foldl_cons, h]
      rcases max_choice a s with h' | h'
      · exact .inl h'
      · exact .inr (by rw [h']; simp)
    · exact .inr (List.mem_cons_of_mem _ (by rw [List.foldl_cons]; exact h))

theorem candidates_filter (rm : ResponseManager) (ei : EndpointID) :
    candidates rm ei = (rm.endpoints.map Prod.snd).filter
      (fun c => decide (c.endpointID.Path = ei.Path ∧ c.endpointID.HTTPMethod = ei.HTTPMethod)) :=
  rfl

theorem matchEndpoint_ok_of_nodup (rm : ResponseManager) (ei : EndpointID)
    (hne : candidates rm ei ≠ [])
    (hnd : (candScores (candidates rm ei) ei).Nodup) :
    ∃ c, c ∈ candidates rm ei ∧ MatchEndpoint rm ei = .ok c ∧
      ∀ c' ∈ candidates rm ei, calculateMatch c' ei ≤ calculateMatch c ei := by
  obtain ⟨c₀, t, hcs⟩ := List.exists_cons_of_ne_nil hne
  have hok := matchCand_ok ei (candidates rm ei) [] none (by simp) hnd
  rw [hcs] at hok
  have hfold : (candScores (c₀ :: t) ei).foldl updateMax none
      = some ((candScores t ei).foldl max (calculateMatch c₀ ei)) := by
    simp only [candScores, List.map_cons, List.foldl_cons]
    exact foldl_updateMax_some _ _
  set M := (candScores t ei).foldl max (calculateMatch c₀ ei) with hM
  have hMmem : M ∈ candScores (c₀ :: t) ei := by
    have h := foldl_max_mem (candScores t ei) (calculateMatch c₀ ei)
    rw [← hM] at h
    simp only [candScores, List.map_cons]
    rcases h with h | h
    · rw [h]; exact List.mem_cons_self _ _
    · exact List.mem_cons_of_mem _ (by simpa [candScores] using h)
  have hMbound : ∀ c' ∈ c₀ :: t, calculateMatch c' ei ≤ M := by
    intro c' hc'
    rcases List.mem_cons.mp hc' with rfl | hmem
    · exact (foldl_max_le (candScores t ei) (calculateMatch c' ei)).1
    · exact (foldl_max_le (candScores t ei) (calculateMatch c₀ ei)).2 _
        (by simpa [candScores] using List.mem_map_of_mem _ hmem)
  have hMex : M ∈ (c₀ :: t).map (fun c => calculateMatch c ei) := by
    simpa [candScores] using hMmem
  obtain ⟨cM, hcMmem, hcMsc⟩ := List.mem_map.mp hMex
  have hlookup : ∃ v, ((c₀ :: t).map (fun c => (calculateMatch c ei, c))).lookup M = some v := by
    have : (((c₀ :: t).map (fun c => (calculateMatch c ei, c))).lookup M).isSome = true := by
      rw [List.lookup_isSome_iff]
      exact ⟨(calculateMatch cM ei, cM), List.mem_map_of_mem _ hcMmem, by simp [hcMsc]⟩
    exact Option.isSome_iff_exists.mp this
  obtain ⟨v, hv⟩ := hlookup
  have hvmem : (M, v) ∈ (c₀ :: t).map (fun c => (calculateMatch c ei, c)) := lookup_mem hv
  obtain ⟨cv, hcvmem, hcveq⟩ := List.mem_map.mp hvmem
  have hcv1 : calculateMatch cv ei = M := congrArg Prod.fst hcveq
  have hcv2 : cv = v := congrArg Prod.snd hcveq
  refine ⟨v, ?_, ?_, ?_⟩
  · rw [hcs]; rw [← hcv2]; exact hcvmem
  · unfold MatchEndpoint
    rw [matchLoop_eq_matchCand, ← candidates_filter, hcs, hok]
    simp only [hfold, List.nil_append]
    rw [hv]
    rfl
  · intro c' hc'
    rw [hcs] at hc'
    have hveq : calculateMatch v ei = M := hcv2 ▸ hcv1
    rw [hveq]
    exact hMbound c' hc'

theorem matchEndpoint_ambiguous_of_dup (rm : ResponseManager) (ei : EndpointID)
    (hdup : ¬ (candScores (candidates rm ei) ei).Nodup) :
    ∃ id, MatchEndpoint rm ei = .error (.ambiguous id) := by
  obtain ⟨id, herr⟩ := matchCand_err ei (candidates rm ei) [] none (fun h => hdup h.2)
  refine ⟨id, ?_⟩
  unfold MatchEndpoint
  rw [matchLoop_eq_matchCand, ← candidates_filter, herr]

theorem candidates_eq_nil_iff (rm : ResponseManager) (ei : EndpointID) :
    candidates rm ei = [] ↔
      ∀ p ∈ rm.endpoints,
        ¬ (p.2.endpointID.Path = ei.Path ∧ p.2.endpointID.HTTPMethod = ei.HTTPMethod) := by
  rw [candidates_filter, List.filter_eq_nil_iff]
  constructor
  · intro h p hp
    have := h p.2 (List.mem_map_of_mem _ hp)
    simpa using this
  · intro h c hc
    obtain ⟨p, hp, rfl⟩ := List.mem_map.mp hc
    simpa using h p hp

theorem matchEndpoint_noMatch_iff (rm : ResponseManager) (ei : EndpointID) :
    MatchEndpoint rm ei = .error (.noMatch ei.Path) ↔ candidates rm ei = [] := by
  constructor
  · intro h
    by_contra hne
    by_cases hnd : (candScores (candidates rm ei) ei).Nodup
    · obtain ⟨c, _, hok, _⟩ := matchEndpoint_ok_of_nodup rm ei hne hnd
      rw [hok] at h
      cases h
    · obtain ⟨id, hamb⟩ := matchEndpoint_ambiguous_of_dup rm ei hnd
      rw [hamb] at h
      simp at h
  · intro h
    unfold MatchEndpoint
    rw [matchLoop_eq_matchCand, ← candidates_filter, h]
    rfl

/-- C1 (amended): `MatchEndpoint` considers exactly the registered
configurations with the request's path and method and scores each with the
§4.3 rule; when the candidates' scores are pairwise distinct it returns the
candidate attaining the maximum, but when any two candidates share a score —
whether or not that shared score is the maximum — it fails with
`AmbiguousMatchError`. -/
theorem matchEndpoint_tie_behavior (rm : ResponseManager) (ei : EndpointID) :
    ((candScores (candidates rm ei) ei).Nodup → candidates rm ei ≠ [] →
      ∃ c, c ∈ candidates rm ei ∧ MatchEndpoint rm ei = .ok c ∧
        ∀ c' ∈ candidates rm ei, calculateMatch c' ei ≤ calculateMatch c ei) ∧
    (¬ (candScores (candidates rm ei) ei).Nodup →
      ∃ id, MatchEndpoint rm ei = .error (.ambiguous id)) :=
  ⟨fun hnd hne => matchEndpoint_ok_of_nodup rm ei hne hnd,
   fun hdup => matchEndpoint_ambiguous_of_dup rm ei hdup⟩

/-- C1 witness: on the two-registration fixture the scores are distinct and
the best candidate is returned; on the three-registration fixture two
candidates share a score and matching fails as ambiguous. -/
theorem matchEndpoint_tie_behavior_witness :
    (∃ c, c ∈ candidates rmNoTie reqTie ∧ MatchEndpoint rmNoTie reqTie = .ok c ∧
      ∀ c' ∈ candidates rmNoTie reqTie,
        calculateMatch c' reqTie ≤ calculateMatch c reqTie) ∧
    ∃ id, MatchEndpoint rmTie reqTie = .error (.ambiguous id) :=
  ⟨(matchEndpoint_tie_behavior rmNoTie reqTie).1 (by decide) (by decide),
   (matchEndpoint_tie_behavior rmTie reqTie).2 (by decide)⟩

/-- C1 counterexample: in the three-registration fixture the candidate scores
against the request are `[0, 0, 1]`, so exactly one candidate attains the
maximum score 1, yet `MatchEndpoint` fails with the ambiguity error (raised
for the tie at the non-maximal score 0) instead of returning that candidate. -/
theorem matchEndpoint_lower_tie_counterexample :
    candidates rmTie reqTie = [cfgTieA, cfgTieB, cfgTieC] ∧
    candScores (candidates rmTie reqTie) reqTie = [0, 0, 1] ∧
    MatchEndpoint rmTie reqTie = .error (.ambiguous (GetID cfgTieB.endpointID)) := by
  decide

/-- C5: `MatchEndpoint` fails with `NoMatchError` exactly when no registered
configuration shares the request's path and method; a fresh registry lists no
configurations and fails every match with `NoMatchError`. -/
theorem matchEndpoint_noMatch_characterization :
    (∀ (rm : ResponseManager) (ei : EndpointID),
      MatchEndpoint rm ei = .error (.noMatch ei.Path) ↔
        ∀ p ∈ rm.endpoints,
          ¬ (p.2.endpointID.Path = ei.Path ∧ p.2.endpointID.HTTPMethod = ei.HTTPMethod)) ∧
    GetAllEndpointConfigurations NewResponseManager = [] ∧
    ∀ ei, MatchEndpoint NewResponseManager ei = .error (.noMatch ei.Path) := by
  refine ⟨fun rm ei => ?_, rfl, fun ei => ?_⟩
  · rw [matchEndpoint_noMatch_iff, candidates_eq_nil_iff]
  · exact (matchEndpoint_noMatch_iff NewResponseManager ei).mpr rfl

/-- C5 witness: a registry holding only `GET /p` registrations rejects a
`GET /q` request with the no-match error. -/
theorem matchEndpoint_noMatch_characterization_witness :
    MatchEndpoint rmTie ⟨"/q", "GET", [], []⟩ = .error (.noMatch "/q") :=
  (matchEndpoint_noMatch_characterization.1 rmTie ⟨"/q", "GET", [], []⟩).mpr (by decide)

theorem addEndpoint_ok_eq {rm : ResponseManager} {ec : EndpointConfiguration}
    {rm₁ : ResponseManager} (h : AddEndpoint rm ec = .ok rm₁) :
    ValidateEndpoint ec = .ok () ∧
    rm.endpoints.lookup (GetID ec.endpointID) = none ∧
    rm₁ = ⟨rm.endpoints ++ [(GetID ec.endpointID, ec)]⟩ := by
  unfold AddEndpoint at h
  cases hv : ValidateEndpoint ec with
  | error e => rw [hv] at h; cases h
  | ok u =>
    cases u
    rw [hv] at h
    by_cases hl : (rm.endpoints.lookup (GetID ec.endpointID)).isSome = true
    · simp [hl] at h
    · refine ⟨rfl, Option.not_isSome_iff_eq_none.mp hl, ?_⟩
      simp only [hl, if_false] at h
      exact (Except.ok.inj h).symm

theorem addEndpoint_dup {rm : ResponseManager} {ec : EndpointConfiguration}
    (hv : ValidateEndpoint ec = .ok ())
    (hmem : GetID ec.endpointID ∈ rm.endpoints.map Prod.fst) :
    AddEndpoint rm ec = .error (.duplicate (GetID ec.endpointID)) := by
  unfold AddEndpoint
  rw [hv]
  have hs : (rm.endpoints.lookup (GetID ec.endpointID)).isSome = true := by
    rw [List.lookup_isSome_iff]
    obtain ⟨p, hp, hfst⟩ := List.mem_map.mp hmem
    exact ⟨p, hp, by simp [hfst]⟩
  simp [hs]

theorem deleteByID_ok_eq {rm : ResponseManager} {ei : EndpointID} {rm' : ResponseManager}
    (h : DeleteEndpointByEndpointID rm ei = .ok rm') :
    rm' = ⟨rm.endpoints.filter (fun p => ¬ p.1 = GetID ei)⟩ := by
  unfold DeleteEndpointByEndpointID at h
  by_cases hl : (rm.endpoints.lookup (GetID ei)).isSome = true
  · simp only [hl, if_true] at h
    exact (Except.ok.inj h).symm
  · simp [hl] at h

theorem deleteByPath_ok_eq {rm : ResponseManager} {path : String} {rm' : ResponseManager}
    (h : DeleteEndpointByPath rm path = .ok rm') :
    rm' = ⟨rm.endpoints.filter (fun p => ¬ p.2.endpointID.Path = path)⟩ :=
  (Except.ok.inj h).symm

theorem deleteByPathAndMethod_ok_eq {rm : ResponseManager} {path method : String}
    {rm' : ResponseManager}
    (h : DeleteEndpointByPathAndMethod rm path method = .ok rm') :
    rm' = ⟨rm.endpoints.filter
      (fun p => ¬ (p.2.endpointID.Path = path ∧ p.2.endpointID.HTTPMethod = method))⟩ :=
  (Except.ok.inj h).symm

theorem applyOp_keys_nodup {rm : ResponseManager}
    (h : (rm.endpoints.map Prod.fst).Nodup) (op : Op) :
    (((applyOp rm op).endpoints).map Prod.fst).Nodup := by
  cases op with
  | add ec =>
    cases ha : AddEndpoint rm ec with
    | error e => simp only [applyOp, ha]; exact h
    | ok rm₁ =>
      simp only [applyOp, ha]
      obtain ⟨hv, hnone, rfl⟩ := addEndpoint_ok_eq ha
      have hnotin : GetID ec.endpointID ∉ rm.endpoints.map Prod.fst := by
        intro hm
        obtain ⟨p, hp, hfst⟩ := List.mem_map.mp hm
        have := List.lookup_eq_none_iff.mp hnone p hp
        simp [hfst] at this
      simp [List.nodup_append, h, hnotin]
  | deleteByID ei =>
    cases hd : DeleteEndpointByEndpointID rm ei with
    | error e => simp only [applyOp, hd]; exact h
    | ok rm' =>
      simp only [applyOp, hd]
      rw [deleteByID_ok_eq hd]
      exact List.Nodup.sublist ((List.filter_sublist _).map Prod.fst) h
  | deleteByPath path =>
    cases hd : DeleteEndpointByPath rm path with
    | error e => simp only [applyOp, hd]; exact h
    | ok rm' =>
      simp only [applyOp, hd]
      rw [deleteByPath_ok_eq hd]
      exact List.Nodup.sublist ((List.filter_sublist _).map Prod.fst) h
  | deleteByPathAndMethod path method =>
    cases hd : DeleteEndpointByPathAndMethod rm path method with
    | error e => simp only [applyOp, hd]; exact h
    | ok rm' =>
      simp only [applyOp, hd]
      rw [deleteByPathAndMethod_ok_eq hd]
      exact List.Nodup.sublist ((List.filter_sublist _).map Prod.fst) h
  | deleteAll => simp [applyOp, DeleteAllEndpoints]

theorem foldl_keys_nodup (ops : List Op) :
    ∀ rm : ResponseManager, (rm.endpoints.map Prod.fst).Nodup →
    (((ops.foldl applyOp rm).endpoints).map Prod.fst).Nodup := by
  induction ops with
  | nil => intro rm h; exact h
  | cons op t ih => intro rm h; exact ih _ (applyOp_keys_nodup h op)

/-- C4: the registry keeps at most one configuration per identity string in
every reachable state; an `AddEndpoint` of a validated configuration whose
identity is already a key fails with the duplicate error; and after a
successful `AddEndpoint`, re-adding the same configuration fails with the
duplicate error, leaves the registry unchanged, and the first call grew the
registry by exactly one entry. -/
theorem addEndpoint_duplicate_rejection :
    (∀ ops : List Op, (((run ops).endpoints).map Prod.fst).Nodup) ∧
    (∀ (rm : ResponseManager) (ec : EndpointConfiguration),
      ValidateEndpoint ec = .ok () →
      GetID ec.endpointID ∈ rm.endpoints.map Prod.fst →
      AddEndpoint rm ec = .error (.duplicate (GetID ec.endpointID))) ∧
    (∀ (rm rm₁ : ResponseManager) (ec : EndpointConfiguration),
      AddEndpoint rm ec = .ok rm₁ →
      AddEndpoint rm₁ ec = .error (.duplicate (GetID ec.endpointID)) ∧
      applyOp rm₁ (.add ec) = rm₁ ∧
      rm₁.endpoints.length = rm.endpoints.length + 1) := by
  refine ⟨fun ops => foldl_keys_nodup ops NewResponseManager (by simp [NewResponseManager]),
    fun rm ec hv hmem => addEndpoint_dup hv hmem, fun rm rm₁ ec h => ?_⟩
  obtain ⟨hv, hnone, rfl⟩ := addEndpoint_ok_eq h
  have hdup : AddEndpoint ⟨rm.endpoints ++ [(GetID ec.endpointID, ec)]⟩ ec
      = .error (.duplicate (GetID ec.endpointID)) := by
    apply addEndpoint_dup hv
    simp
  refine ⟨hdup, ?_, by simp⟩
  simp only [applyOp, hdup]

/-- C4 witness: adding the upper-case fixture twice to a fresh registry. -/
theorem addEndpoint_duplicate_rejection_witness :
    AddEndpoint ⟨[("/a:get", cfgUpper)]⟩ cfgUpper = .error (.duplicate "/a:get") ∧
    applyOp ⟨[("/a:get", cfgUpper)]⟩ (.add cfgUpper) = ⟨[("/a:get", cfgUpper)]⟩ ∧
    ([("/a:get", cfgUpper)] : List (String × EndpointConfiguration)).length
      = ([] : List (String × EndpointConfiguration)).length + 1 := by
  have h := (addEndpoint_duplicate_rejection.2.2 NewResponseManager
    ⟨[("/a:get", cfgUpper)]⟩ cfgUpper (by decide))
  exact ⟨by have := h.1; simpa [cfgUpper, GetID, lowercase, pairsSuffix] using this,
    h.2.1, h.2.2⟩

/-- C6: after a successful `AddEndpoint`, exact lookup by the configuration's
`EndpointID` returns that configuration. -/
theorem addEndpoint_roundtrip (rm : ResponseManager) (ec : EndpointConfiguration)
    (rm₁ : ResponseManager) (h : AddEndpoint rm ec = .ok rm₁) :
    GetEndpointByEndpointID rm₁ ec.endpointID = .ok ec := by
  obtain ⟨hv, hnone, rfl⟩ := addEndpoint_ok_eq h
  unfold GetEndpointByEndpointID
  rw [List.lookup_append, hnone]
  simp [Option.or]

/-- C6 witness: round trip on a concrete registration. -/
theorem addEndpoint_roundtrip_witness :
    GetEndpointByEndpointID ⟨[("/a:get", cfgUpper)]⟩ cfgUpper.endpointID = .ok cfgUpper :=
  addEndpoint_roundtrip NewResponseManager cfgUpper ⟨[("/a:get", cfgUpper)]⟩ (by decide)

theorem validate_ok_fields {ec : EndpointConfiguration} {u : Unit}
    (h : ValidateEndpoint ec = .ok u) :
    ec.ResponseBody ≠ "" ∧ ec.endpointID.HTTPMethod ∈ validMethods := by
  unfold ValidateEndpoint at h
  by_cases h1 : ec.endpointID.Path = "" ∨ ec.endpointID.HTTPMethod = ""
  · rw [if_pos h1] at h; cases h
  · rw [if_neg h1] at h
    by_cases h2 : ec.ResponseBody = ""
    · rw [if_pos h2] at h; cases h
    · rw [if_neg h2] at h
      unfold validateHTTPMethods at h
      by_cases h3 : validMethods.contains ec.endpointID.HTTPMethod = true
      · exact ⟨h2, by simpa using h3⟩
      · rw [if_neg h3] at h; cases h

theorem applyOp_fields {rm : ResponseManager}
    (h : ∀ p ∈ rm.endpoints,
      p.2.ResponseBody ≠ "" ∧ p.2.endpointID.HTTPMethod ∈ validMethods) (op : Op) :
    ∀ p ∈ (applyOp rm op).endpoints,
      p.2.ResponseBody ≠ "" ∧ p.2.endpointID.HTTPMethod ∈ validMethods := by
  cases op with
  | add ec =>
    cases ha : AddEndpoint rm ec with
    | error e => simp only [applyOp, ha]; exact h
    | ok rm₁ =>
      simp only [applyOp, ha]
      obtain ⟨hv, hnone, rfl⟩ := addEndpoint_ok_eq ha
      intro p hp
      rcases List.mem_append.mp hp with hmem | hmem
      · exact h p hmem
      · have hpe : p = (GetID ec.endpointID, ec) := by simpa using hmem
        rw [hpe]
        exact validate_ok_fields hv
  | deleteByID ei =>
    cases hd : DeleteEndpointByEndpointID rm ei with
    | error e => simp only [applyOp, hd]; exact h
    | ok rm' =>
      simp only [applyOp, hd]
      rw [deleteByID_ok_eq hd]
      intro p hp
      exact h p (List.mem_of_mem_filter hp)
  | deleteByPath path =>
    cases hd : DeleteEndpointByPath rm path with
    | error e => simp only [applyOp, hd]; exact h
    | ok rm' =>
      simp only [applyOp, hd]
      rw [deleteByPath_ok_eq hd]
      intro p hp
      exact h p (List.mem_of_mem_filter hp)
  | deleteByPathAndMethod path method =>
    cases hd : DeleteEndpointByPathAndMethod rm path method with
    | error e => simp only [applyOp, hd]; exact h
    | ok rm' =>
      simp only [applyOp, hd]
      rw [deleteByPathAndMethod_ok_eq hd]
      intro p hp
      exact h p (List.mem_of_mem_filter hp)
  | deleteAll => intro p hp; simp [applyOp, DeleteAllEndpoints] at hp

theorem foldl_fields (ops : List Op) :
    ∀ rm : ResponseManager,
    (∀ p ∈ rm.endpoints,
      p.2.ResponseBody ≠ "" ∧ p.2.endpointID.HTTPMethod ∈ validMethods) →
    ∀ p ∈ (ops.foldl applyOp rm).endpoints,
      p.2.ResponseBody ≠ "" ∧ p.2.endpointID.HTTPMethod ∈ validMethods := by
  induction ops with
  | nil => intro rm h; exact h
  | cons op t ih => intro rm h; exact ih _ (applyOp_fields h op)

/-- C7: in every registry state reachable from a fresh manager, every
registered configuration has a non-empty response body and one of the six
allowed HTTP methods. -/
theorem run_registered_validated (ops : List Op) :
    ∀ p ∈ (run ops).endpoints,
      p.2.ResponseBody ≠ "" ∧ p.2.endpointID.HTTPMethod ∈ validMethods :=
  foldl_fields ops NewResponseManager (by simp [NewResponseManager])

/-- C7 witness: the invariant evaluated on a concrete reachable state. -/
theorem run_registered_validated_witness :
    cfgUpper.ResponseBody ≠ "" ∧ cfgUpper.endpointID.HTTPMethod ∈ validMethods :=
  run_registered_validated [.add cfgUpper] ("/a:get", cfgUpper) (by decide)

/-- C8: `DeleteEndpointByPath` always succeeds; the resulting registry holds
exactly the configurations of the old registry whose path differs from the
argument. -/
theorem deleteEndpointByPath_spec (rm : ResponseManager) (path : String) :
    ∃ rm', DeleteEndpointByPath rm path = .ok rm' ∧
      ∀ p, p ∈ rm'.endpoints ↔ p ∈ rm.endpoints ∧ ¬ p.2.endpointID.Path = path := by
  refine ⟨_, rfl, fun p => ?_⟩
  simp [DeleteEndpointByPath, List.mem_filter]

/-- C8 witness: deleting `/p` from the mixed fixture keeps exactly the `/b`
registration. -/
theorem deleteEndpointByPath_spec_witness :
    ∃ rm', DeleteEndpointByPath rmMixed "/p" = .ok rm' ∧
      ∀ p, p ∈ rm'.endpoints ↔ p ∈ rmMixed.endpoints ∧ ¬ p.2.endpointID.Path = "/p" :=
  deleteEndpointByPath_spec rmMixed "/p"

/-- C9: `GetID` is not injective: the fixtures `cfgUpper` and `cfgLower`
differ (their paths differ in letter case) yet share the identity string
`/a:get`, so after registering the first, registering the second fails as a
duplicate even though the two request shapes are distinct. -/
theorem getID_not_injective :
    cfgUpper.endpointID ≠ cfgLower.endpointID ∧
    GetID cfgUpper.endpointID = GetID cfgLower.endpointID ∧
    AddEndpoint NewResponseManager cfgUpper = .ok ⟨[("/a:get", cfgUpper)]⟩ ∧
    AddEndpoint ⟨[("/a:get", cfgUpper)]⟩ cfgLower = .error (.duplicate "/a:get") := by
  decide

/-- C10: validation never inspects `ResponseStatusCode` or `ResponseHeaders`:
replacing both fields by arbitrary values (any integer status code, any header
map) leaves the validation outcome unchanged. -/
theorem validateEndpoint_ignores_response_fields (ec : EndpointConfiguration)
    (status : Int) (hdrs : List (String × String)) :
    ValidateEndpoint { ec with ResponseStatusCode := status, ResponseHeaders := hdrs }
      = ValidateEndpoint ec := rfl

end StubServer
